import Mathlib

/-!
Shallow embedding of `src/AfLogsCleaner.py`, a cleaner for Airflow dag-run
log files stored in Minio.

Modelling conventions:
* Paths are `List Char`; the construction-time Minio connection parameters
  are irrelevant to the verified logic and are omitted.
* `datetime.date` is a year/month/day triple; Python date comparison and
  `timedelta` subtraction are modelled on `toOrdinal` (Python's
  `date.toordinal`), on which both agree for valid dates.
* Python exceptions are modelled with `Except`: `strptime`'s `ValueError`
  on a malformed date is `PyError.parseError` (the spec's `ParseError`),
  and the `TypeError` raised by comparing `None` with a date is
  `PyError.typeError`.
* `re.search` with the two module-level patterns is modelled by a
  specialised leftmost-match backtracking matcher per pattern, with the
  character classes `\d`, `\D`, `\w` read over ASCII.
* The Minio client's `remove_object` is a parameter
  `remove : List Char → Except StoreError Unit`; `delete_expired_logs`
  returns the observable trace of the call (which removals were issued,
  what was printed, and the exception that escaped, if any), since the
  Python function returns `None`.
-/

namespace AfLogsCleaner

/-- Errors observable from the Python code: `ValueError` from `strptime`
(the spec's `ParseError`) and `TypeError` from comparing `None` to a date. -/
inductive PyError where
  | parseError
  | typeError
deriving DecidableEq, Repr

/-- Errors the object store can raise on `remove_object`. -/
inductive StoreError where
  | objectNotFound
  | storeUnavailable
deriving DecidableEq, Repr

/-- A Minio object descriptor; only `object_name` is used by the code. -/
structure Object where
  object_name : List Char
deriving DecidableEq, Repr

/-- A Python `datetime.date` value. -/
structure Date where
  year : Nat
  month : Nat
  day : Nat
deriving DecidableEq, Repr

def isLeapYear (y : Nat) : Bool :=
  y % 4 == 0 && (y % 100 != 0 || y % 400 == 0)

def daysInMonth (y m : Nat) : Nat :=
  if m = 2 then (if isLeapYear y then 29 else 28)
  else if m = 4 ∨ m = 6 ∨ m = 9 ∨ m = 11 then 30
  else 31

/-- Validity of `date(y, m, d)` per Python `datetime` (MINYEAR = 1,
MAXYEAR = 9999). -/
def validDate (y m d : Nat) : Bool :=
  1 ≤ y && y ≤ 9999 && 1 ≤ m && m ≤ 12 && 1 ≤ d && d ≤ daysInMonth y m

def daysBeforeYear (y : Nat) : Nat :=
  365 * (y - 1) + (y - 1) / 4 - (y - 1) / 100 + (y - 1) / 400

def daysBeforeMonth (y m : Nat) : Nat :=
  (List.range (m - 1)).foldl (fun acc k => acc + daysInMonth y (k + 1)) 0

/-- Python's `date.toordinal`: day number in the proleptic Gregorian
calendar with `date(1,1,1).toordinal() = 1`.  Date comparison and
`date - timedelta(days=n)` are modelled through this map. -/
def toOrdinal (dt : Date) : Nat :=
  daysBeforeYear dt.year + daysBeforeMonth dt.year dt.month + dt.day

/-- ASCII reading of the regex class `\d`. -/
def isDigitCh (c : Char) : Bool := '0' ≤ c && c ≤ '9'

/-- ASCII reading of the regex class `\w`. -/
def isWordCh (c : Char) : Bool := c.isAlphanum || c = '_'

/-- Does `l` begin with a `\d{4}-\d{2}-\d{2}` shaped substring? -/
def dateShape (l : List Char) : Bool :=
  match l with
  | a :: b :: c :: d :: e :: f :: g :: h :: i :: j :: _ =>
    isDigitCh a && isDigitCh b && isDigitCh c && isDigitCh d && e == '-' &&
      isDigitCh f && isDigitCh g && h == '-' && isDigitCh i && isDigitCh j
  | _ => false

def headIsSlash (l : List Char) : Bool :=
  decide (l.take 1 = ['/'])

/-- Backtracking for `\D+__(\d{4}-\d{2}-\d{2})` after `run_id=`: try the
`\D+` lengths `j, j-1, …, 1` (greedy, longest first) and capture the date
group of the first that is followed by `__` and a date shape. -/
def greedyDtSearch (rest : List Char) : Nat → Option (List Char)
  | 0 => none
  | j + 1 =>
    if (rest.drop (j + 1)).take 2 = ['_', '_'] && dateShape (rest.drop (j + 3))
    then some ((rest.drop (j + 3)).take 10)
    else greedyDtSearch rest j

/-- Match `regexp_extract_dagrun_dt = "run_id=\D+__(\d{4}-\d{2}-\d{2})"`
anchored at the head of `l`, returning the captured group. -/
def matchRunIdAt (l : List Char) : Option (List Char) :=
  if l.take 7 = "run_id=".toList then
    greedyDtSearch (l.drop 7) ((l.drop 7).takeWhile (fun c => !isDigitCh c)).length
  else none

/-- Backtracking for `(\w+)/` after `dag_id=`: try the `\w+` lengths
`j, j-1, …, 1` (greedy, longest first) and capture the first that is
followed by `/`. -/
def greedySlash (rest : List Char) : Nat → Option (List Char)
  | 0 => none
  | j + 1 =>
    if headIsSlash (rest.drop (j + 1)) then some (rest.take (j + 1))
    else greedySlash rest j

/-- Match `regexp_extract_dag_name = "dag_id=(\w+)/"` anchored at the head
of `l`, returning the captured group. -/
def matchDagAt (l : List Char) : Option (List Char) :=
  if l.take 7 = "dag_id=".toList then
    greedySlash (l.drop 7) ((l.drop 7).takeWhile isWordCh).length
  else none

/-- `re.search`: try the anchored matcher at every start position, left to
right, returning the leftmost match's capture. -/
def regexSearch (m : List Char → Option (List Char)) : List Char → Option (List Char)
  | [] => none
  | c :: cs =>
    match m (c :: cs) with
    | some r => some r
    | none => regexSearch m cs

def parseDigit (c : Char) : Nat := c.toNat - 48

/-- `datetime.datetime.strptime(s, "%Y-%m-%d").date()`: parses the digits
and raises `ValueError` (modelled `parseError`) when the result is not a
valid calendar date. -/
def strptimeYmd (l : List Char) : Except PyError Date :=
  match l with
  | [a, b, c, d, _e, f, g, _h, i, j] =>
    let y := 1000 * parseDigit a + 100 * parseDigit b + 10 * parseDigit c + parseDigit d
    let m := 10 * parseDigit f + parseDigit g
    let dd := 10 * parseDigit i + parseDigit j
    if validDate y m dd then .ok ⟨y, m, dd⟩ else .error .parseError
  | _ => .error .parseError

/-- `AfLogsCleaner._extract_dagrun_dt_from_path`: regex-search the path
for the dag-run date; `None` (here `Option.none`) when the pattern does
not occur, the `strptime`d date otherwise, with `strptime`'s `ValueError`
propagating. -/
def _extract_dagrun_dt_from_path (file_path : List Char) : Except PyError (Option Date) :=
  match regexSearch matchRunIdAt file_path with
  | some cap => (strptimeYmd cap).map some
  | none => .ok none

/-- `AfLogsCleaner._extract_dag_name_from_path`: regex-search the path for
the dag name; `None` when the pattern does not occur. -/
def _extract_dag_name_from_path (file_path : List Char) : Option (List Char) :=
  regexSearch matchDagAt file_path

/-- The predicate `dag_run_dt < expire_deadline` actually selecting a file
in `choose_expired_logs`, as a function of the already-computed deadline
ordinal. -/
def isExpired (deadline : Int) (f : Object) : Bool :=
  match _extract_dagrun_dt_from_path f.object_name with
  | .ok (some d) => decide ((toOrdinal d : Int) < deadline)
  | _ => false

/-- The `for log_file in log_files` loop of `choose_expired_logs`:
extraction errors propagate; an absent date flows into `None < date`,
raising `TypeError`. -/
def choose_go (deadline : Int) : List Object → Except PyError (List Object)
  | [] => .ok []
  | f :: fs =>
    match _extract_dagrun_dt_from_path f.object_name with
    | .error e => .error e
    | .ok none => .error .typeError
    | .ok (some dt) =>
      match choose_go deadline fs with
      | .error e => .error e
      | .ok rest => .ok (if (toOrdinal dt : Int) < deadline then f :: rest else rest)

/-- `AfLogsCleaner.choose_expired_logs`: `now_dt` stands for
`datetime.datetime.now().date()`, and
`expire_deadline = now_dt - timedelta(days=logs_ttl_days)` is taken on
ordinals. -/
def choose_expired_logs (now_dt : Date) (log_files : List Object) (logs_ttl_days : Nat) :
    Except PyError (List Object) :=
  choose_go ((toOrdinal now_dt : Int) - logs_ttl_days) log_files

/-- `AfLogsCleaner.list_log_files`: `objects` stands for the store listing
`client.list_objects(bucket, recursive=True)`.  `if dag_names:` is Python
truthiness, so `None` and `[]` take the same branch; `None in dag_names`
is `False` for a list of strings, and the no-filter branch keeps an object
iff the extracted name is truthy (non-`None` and non-empty). -/
def list_log_files (objects : List Object) (dag_names : Option (List (List Char))) :
    List Object :=
  match dag_names with
  | some (n :: ns) =>
    objects.filter (fun o =>
      match _extract_dag_name_from_path o.object_name with
      | some nm => decide (nm ∈ n :: ns)
      | none => false)
  | _ =>
    objects.filter (fun o =>
      match _extract_dag_name_from_path o.object_name with
      | some nm => decide (nm ≠ [])
      | none => false)

/-- Observable trace of one `delete_expired_logs` call: the object names
passed to `client.remove_object` in order, the lines printed, and the
exception that escaped the call, if any (the Python function returns
`None`, so the trace is all there is to observe). -/
structure DeleteResult where
  attempted : List (List Char)
  printed : List (List Char)
  error : Option StoreError
deriving DecidableEq, Repr

/-- The `for file in log_files` loop of `delete_expired_logs`: a raised
`StoreError` is not caught, so it aborts the loop at once. -/
def delete_go (remove : List Char → Except StoreError Unit) : List Object → DeleteResult
  | [] => ⟨[], [], none⟩
  | f :: fs =>
    match remove f.object_name with
    | .error e => ⟨[f.object_name], [], some e⟩
    | .ok _ =>
      let r := delete_go remove fs
      ⟨f.object_name :: r.attempted,
       ("Deleted logfile: ".toList ++ f.object_name) :: r.printed,
       r.error⟩

/-- `AfLogsCleaner.delete_expired_logs`. -/
def delete_expired_logs (remove : List Char → Except StoreError Unit)
    (log_files : List Object) : DeleteResult :=
  if log_files.length > 0 then delete_go remove log_files
  else ⟨[], ["No logfiles to delete".toList], none⟩

instance {ε α : Type} [DecidableEq ε] [DecidableEq α] : DecidableEq (Except ε α) := fun x y =>
  match x, y with
  | .ok a, .ok b =>
    if h : a = b then .isTrue (h ▸ rfl) else .isFalse (fun hh => h (Except.ok.inj hh))
  | .error a, .error b =>
    if h : a = b then .isTrue (h ▸ rfl) else .isFalse (fun hh => h (Except.error.inj hh))
  | .ok _, .error _ => .isFalse (fun hh => Except.noConfusion hh)
  | .error _, .ok _ => .isFalse (fun hh => Except.noConfusion hh)

/-! ### General lemmas about the leftmost-match search -/

lemma regexSearch_cons (m : List Char → Option (List Char)) (c : Char) (cs : List Char) :
    regexSearch m (c :: cs) =
      match m (c :: cs) with
      | some r => some r
      | none => regexSearch m cs := rfl

lemma regexSearch_cons_of_match {m : List Char → Option (List Char)} {c : Char}
    {cs r : List Char} (h : m (c :: cs) = some r) : regexSearch m (c :: cs) = some r := by
  rw [regexSearch_cons, h]

lemma regexSearch_append_of_no_match {m : List Char → Option (List Char)}
    (pre rest : List Char)
    (h : ∀ i, i < pre.length → m ((pre ++ rest).drop i) = none) :
    regexSearch m (pre ++ rest) = regexSearch m rest := by
  induction pre with
  | nil => rfl
  | cons c cs ih =>
    have h0 : m (c :: (cs ++ rest)) = none := by
      have h' := h 0 (by simp)
      simpa using h'
    have step : regexSearch m (c :: (cs ++ rest)) = regexSearch m (cs ++ rest) := by
      rw [regexSearch_cons, h0]
    rw [List.cons_append, step]
    exact ih (fun i hi => by simpa using h (i + 1) (by simpa using Nat.succ_lt_succ hi))

lemma regexSearch_eq_none {m : List Char → Option (List Char)} {l : List Char}
    (h : ∀ l2, l2 <:+ l → m l2 = none) : regexSearch m l = none := by
  induction l with
  | nil => rfl
  | cons c cs ih =>
    rw [regexSearch, h (c :: cs) (List.suffix_refl _)]
    exact ih (fun l2 hl2 => h l2 (hl2.trans (List.suffix_cons c cs)))

lemma regexSearch_eq_some {m : List Char → Option (List Char)} {l r : List Char}
    (h : regexSearch m l = some r) : ∃ l2, l2 <:+ l ∧ m l2 = some r := by
  induction l with
  | nil => simp [regexSearch] at h
  | cons c cs ih =>
    rw [regexSearch] at h
    cases hm : m (c :: cs) with
    | some r' =>
      rw [hm] at h
      exact ⟨c :: cs, List.suffix_refl _, hm.trans h⟩
    | none =>
      rw [hm] at h
      obtain ⟨l2, hsuf, hm2⟩ := ih h
      exact ⟨l2, hsuf.trans (List.suffix_cons c cs), hm2⟩

/-! ### Claim theorems: error handling of `choose_expired_logs` and
`delete_expired_logs` -/

/-- C1: the spec requires `choose_expired_logs` to skip an item with no
extractable execution date or fail with `ParseError`, never comparing an
absent value to the deadline.  The code does compare the absent value:
on a path with no `run_id=` convention, extraction yields `None` and the
comparison `None < expire_deadline` raises `TypeError`, so the code
violates the claim. -/
theorem choose_expired_logs_typeError_on_absent :
    _extract_dagrun_dt_from_path ("a/dag_id=x/plain.log".toList) = .ok none ∧
    choose_expired_logs ⟨2024, 6, 10⟩ [⟨"a/dag_id=x/plain.log".toList⟩] 5 =
      .error .typeError := by
  decide

def pathA : List Char := "a/dag_id=x/run_id=m__2024-01-01/f.log".toList
def pathB : List Char := "a/dag_id=x/run_id=n__2024-01-02/f.log".toList
def pathC : List Char := "a/dag_id=x/run_id=p__2024-01-03/f.log".toList

/-- A store whose `remove_object` raises `ObjectNotFoundError` exactly on
`pathB` and succeeds elsewhere. -/
def failRemove : List Char → Except StoreError Unit := fun n =>
  if n = pathB then .error .objectNotFound else .ok ()

/-- C3: the spec requires `delete_expired_logs` to keep processing after a
per-item store failure and report the failure keyed by path.  The code
catches nothing: with three items and `ObjectNotFoundError` on the second,
only the first two removals are attempted, the third item is never
reached, and the exception escapes the call instead of being reported. -/
theorem delete_expired_logs_aborts_on_failure :
    delete_expired_logs failRemove [⟨pathA⟩, ⟨pathB⟩, ⟨pathC⟩] =
      ⟨[pathA, pathB], ["Deleted logfile: ".toList ++ pathA], some .objectNotFound⟩ ∧
    (delete_expired_logs failRemove [⟨pathA⟩, ⟨pathB⟩, ⟨pathC⟩]).attempted.length = 2 := by
  decide

/-- C9: on an empty input list, `delete_expired_logs` issues no removal
request to the store, prints no per-item deletion record, and prints the
informational notice `No logfiles to delete`, whatever the store's
behaviour. -/
theorem delete_expired_logs_empty_noop (remove : List Char → Except StoreError Unit) :
    delete_expired_logs remove [] = ⟨[], ["No logfiles to delete".toList], none⟩ := rfl

/-- C7: when the dag-run pattern matches but the captured `YYYY-MM-DD`
shaped substring is not a valid calendar date, `_extract_dagrun_dt_from_path`
fails with `ParseError` (the `ValueError` of `strptime`) instead of
returning an absent value. -/
theorem extract_execution_date_malformed_parseError (p : List Char)
    (a b c d f g i j : Char)
    (hsearch : regexSearch matchRunIdAt p = some [a, b, c, d, '-', f, g, '-', i, j])
    (hbad : validDate (1000 * parseDigit a + 100 * parseDigit b + 10 * parseDigit c + parseDigit d)
      (10 * parseDigit f + parseDigit g) (10 * parseDigit i + parseDigit j) = false) :
    _extract_dagrun_dt_from_path p = .error .parseError := by
  rw [_extract_dagrun_dt_from_path, hsearch]
  simp [strptimeYmd, hbad, Except.map]

/-- Witness for C7 at the concrete path `run_id=x__2024-02-31/f.log`:
February 2024 has 29 days, so `2024-02-31` is shape-valid but not a
calendar date. -/
theorem extract_execution_date_malformed_parseError_witness :
    _extract_dagrun_dt_from_path ("run_id=x__2024-02-31/f.log".toList) =
      .error .parseError :=
  extract_execution_date_malformed_parseError _ '2' '0' '2' '4' '0' '2' '3' '1'
    (by decide) (by decide)

/-! ### Selection semantics of `choose_expired_logs` -/

/-- When every path in the list yields a parseable execution date, the
selection loop is a stable filter by `dag_run_dt < expire_deadline`. -/
lemma choose_go_eq_filter (dl : Int) (files : List Object)
    (h : ∀ f ∈ files, ∃ d, _extract_dagrun_dt_from_path f.object_name = .ok (some d)) :
    choose_go dl files = .ok (files.filter (isExpired dl)) := by
  induction files with
  | nil => rfl
  | cons f fs ih =>
    obtain ⟨d, hd⟩ := h f (List.mem_cons_self f fs)
    have ih2 := ih (fun g hg => h g (List.mem_cons_of_mem f hg))
    rw [choose_go, hd, ih2]
    by_cases hlt : (toOrdinal d : Int) < dl
    · simp [List.filter_cons, isExpired, hd, hlt]
    · simp [List.filter_cons, isExpired, hd, hlt]

/-- C2: on a sequence of descriptors whose paths all carry a parseable
execution date, `choose_expired_logs` returns exactly the stable, in-order
subsequence of items whose date ordinal is strictly below
`toOrdinal now_dt - logs_ttl_days`; an item dated exactly on the deadline
fails the strict inequality and is retained. -/
theorem choose_expired_logs_filters_expired (now_dt : Date) (files : List Object)
    (ttl : Nat)
    (h : ∀ f ∈ files, ∃ d, _extract_dagrun_dt_from_path f.object_name = .ok (some d)) :
    choose_expired_logs now_dt files ttl =
      .ok (files.filter (isExpired ((toOrdinal now_dt : Int) - ttl))) :=
  choose_go_eq_filter _ files h

/-- The log file of a run dated 2024-06-09, the day before the sample
"today". -/
def yesterObj : Object := ⟨"a/dag_id=x/run_id=m__2024-06-09/f.log".toList⟩

/-- The log file of a run dated 2024-06-10, the sample "today". -/
def todayObj : Object := ⟨"a/dag_id=y/run_id=n__2024-06-10/f.log".toList⟩

/-- Witness for C2, at `ttl_days = 0` with today = 2024-06-10: the item
dated yesterday is selected, the item dated today is retained. -/
theorem choose_expired_logs_filters_expired_witness :
    choose_expired_logs ⟨2024, 6, 10⟩ [yesterObj, todayObj] 0 = .ok [yesterObj] := by
  have h : ∀ f ∈ [yesterObj, todayObj],
      ∃ d, _extract_dagrun_dt_from_path f.object_name = .ok (some d) := by
    intro f hf
    rcases List.mem_cons.mp hf with rfl | hf2
    · exact ⟨⟨2024, 6, 9⟩, by decide⟩
    rcases List.mem_cons.mp hf2 with rfl | hf3
    · exact ⟨⟨2024, 6, 10⟩, by decide⟩
    · exact absurd hf3 (List.not_mem_nil f)
  rw [choose_expired_logs_filters_expired ⟨2024, 6, 10⟩ [yesterObj, todayObj] 0 h]
  decide

/-- C8: `choose_expired_logs` is idempotent on its selection criterion:
with the same current date and the same `ttl_days`, running the selection
on its own output returns that output unchanged. -/
theorem choose_expired_logs_idempotent (now_dt : Date) (files L : List Object) (ttl : Nat)
    (h : ∀ f ∈ files, ∃ d, _extract_dagrun_dt_from_path f.object_name = .ok (some d))
    (hL : choose_expired_logs now_dt files ttl = .ok L) :
    choose_expired_logs now_dt L ttl = .ok L := by
  have h1 := choose_go_eq_filter ((toOrdinal now_dt : Int) - ttl) files h
  rw [choose_expired_logs, h1] at hL
  have hLe : L = files.filter (isExpired ((toOrdinal now_dt : Int) - ttl)) :=
    (Except.ok.inj hL).symm
  have h2 : ∀ f ∈ L, ∃ d, _extract_dagrun_dt_from_path f.object_name = .ok (some d) :=
    fun f hf => h f (List.mem_of_mem_filter (hLe ▸ hf))
  rw [choose_expired_logs, choose_go_eq_filter _ L h2, hLe, List.filter_filter]
  simp

/-- Witness for C8: selecting from the two sample files at ttl 0 yields
`[yesterObj]`, and re-selecting from `[yesterObj]` returns it unchanged. -/
theorem choose_expired_logs_idempotent_witness :
    choose_expired_logs ⟨2024, 6, 10⟩ [yesterObj] 0 = .ok [yesterObj] := by
  have h : ∀ f ∈ [yesterObj, todayObj],
      ∃ d, _extract_dagrun_dt_from_path f.object_name = .ok (some d) := by
    intro f hf
    rcases List.mem_cons.mp hf with rfl | hf2
    · exact ⟨⟨2024, 6, 9⟩, by decide⟩
    rcases List.mem_cons.mp hf2 with rfl | hf3
    · exact ⟨⟨2024, 6, 10⟩, by decide⟩
    · exact absurd hf3 (List.not_mem_nil f)
  exact choose_expired_logs_idempotent ⟨2024, 6, 10⟩ [yesterObj, todayObj] [yesterObj] 0 h
    (by decide)

/-! ### Inversion lemmas for the dag-name matcher -/

lemma headIsSlash_true {l : List Char} (h : headIsSlash l = true) :
    ∃ t, l = '/' :: t := by
  cases l with
  | nil => simp [headIsSlash] at h
  | cons c t =>
    simp [headIsSlash] at h
    exact ⟨t, by rw [h]⟩

lemma greedySlash_eq_some {rest nm : List Char} {k : Nat}
    (h : greedySlash rest k = some nm) :
    ∃ j, j < k ∧ nm = rest.take (j + 1) ∧ headIsSlash (rest.drop (j + 1)) = true := by
  induction k with
  | zero => simp [greedySlash] at h
  | succ j ih =>
    rw [greedySlash] at h
    by_cases hs : headIsSlash (rest.drop (j + 1)) = true
    · rw [if_pos hs] at h
      exact ⟨j, Nat.lt_succ_self j, (Option.some.inj h).symm, hs⟩
    · rw [if_neg hs] at h
      obtain ⟨j', hj', hnm, hs'⟩ := ih h
      exact ⟨j', hj'.trans (Nat.lt_succ_self j), hnm, hs'⟩

lemma matchDagAt_eq_some {l nm : List Char} (h : matchDagAt l = some nm) :
    ∃ rest, l = "dag_id=".toList ++ rest ∧
      ∃ j, nm = rest.take (j + 1) ∧ j + 1 ≤ (rest.takeWhile isWordCh).length ∧
        headIsSlash (rest.drop (j + 1)) = true := by
  rw [matchDagAt] at h
  by_cases h7 : l.take 7 = "dag_id=".toList
  · rw [if_pos h7] at h
    obtain ⟨j, hj, hnm, hs⟩ := greedySlash_eq_some h
    refine ⟨l.drop 7, ?_, j, hnm, hj, hs⟩
    conv_lhs => rw [← List.take_append_drop 7 l]
    rw [h7]
  · rw [if_neg h7] at h
    exact absurd h (by simp)

lemma forall_mem_take_of_le_takeWhile {p : Char → Bool} {l : List Char} {j : Nat}
    (h : j ≤ (l.takeWhile p).length) : ∀ c ∈ l.take j, p c = true := by
  induction l generalizing j with
  | nil => simp
  | cons a t ih =>
    cases j with
    | zero => simp
    | succ j' =>
      by_cases hp : p a = true
      · rw [List.takeWhile_cons, if_pos hp] at h
        simp only [List.length_cons, Nat.succ_le_succ_iff] at h
        intro c hc
        rcases List.mem_cons.mp hc with rfl | hc2
        · exact hp
        · exact ih h c hc2
      · rw [List.takeWhile_cons, if_neg hp] at h
        simp at h

lemma extract_dag_name_ne_nil {p nm : List Char}
    (h : _extract_dag_name_from_path p = some nm) : nm ≠ [] := by
  obtain ⟨l2, _, hm⟩ := regexSearch_eq_some h
  obtain ⟨rest, _, j, hnm, hle, hs⟩ := matchDagAt_eq_some hm
  obtain ⟨t, ht⟩ := headIsSlash_true hs
  intro hnil
  rw [hnm, List.take_eq_nil_iff] at hnil
  rcases hnil with hj | hrest
  · exact Nat.succ_ne_zero j hj
  · rw [hrest] at ht
    simp at ht

lemma list_log_files_none_eq (objects : List Object) :
    list_log_files objects none = objects.filter (fun o =>
      match _extract_dag_name_from_path o.object_name with
      | some nm => decide (nm ≠ [])
      | none => false) := rfl

lemma list_log_files_some_nil_eq (objects : List Object) :
    list_log_files objects (some []) = objects.filter (fun o =>
      match _extract_dag_name_from_path o.object_name with
      | some nm => decide (nm ≠ [])
      | none => false) := rfl

lemma list_log_files_some_cons_eq (objects : List Object) (n : List Char)
    (ns : List (List Char)) :
    list_log_files objects (some (n :: ns)) = objects.filter (fun o =>
      match _extract_dag_name_from_path o.object_name with
      | some nm => decide (nm ∈ n :: ns)
      | none => false) := rfl

/-- C6: `list_log_files` with absent or empty `dag_names` yields exactly
the objects whose path has an extractable dag name (the truthiness test of
the code coincides with presence because a `\w+` capture is never empty);
with a non-empty `dag_names`, it yields exactly the objects whose
extracted name is one of the given names, which excludes every object
without an extractable name. -/
theorem list_log_files_filter_spec (objects : List Object) :
    list_log_files objects none =
        objects.filter (fun o => (_extract_dag_name_from_path o.object_name).isSome) ∧
    list_log_files objects (some []) =
        objects.filter (fun o => (_extract_dag_name_from_path o.object_name).isSome) ∧
    ∀ n ns, list_log_files objects (some (n :: ns)) =
        objects.filter (fun o =>
          decide (∃ nm ∈ n :: ns, _extract_dag_name_from_path o.object_name = some nm)) := by
  refine ⟨?_, ?_, ?_⟩
  · rw [list_log_files_none_eq]
    apply List.filter_congr
    intro o _
    cases hx : _extract_dag_name_from_path o.object_name with
    | none => simp
    | some nm => simp [extract_dag_name_ne_nil hx]
  · rw [list_log_files_some_nil_eq]
    apply List.filter_congr
    intro o _
    cases hx : _extract_dag_name_from_path o.object_name with
    | none => simp
    | some nm => simp [extract_dag_name_ne_nil hx]
  · intro n ns
    rw [list_log_files_some_cons_eq]
    apply List.filter_congr
    intro o _
    cases hx : _extract_dag_name_from_path o.object_name with
    | none => simp [hx]
    | some nm => simp [hx]

/-! ### Extraction of the execution date (C4) -/

/-- Anchored at its own occurrence, `run_id=xyz__2024-01-15` matches the
dag-run pattern and captures `2024-01-15`, whatever follows. -/
lemma matchRunIdAt_xyz (suf : List Char) :
    matchRunIdAt ("run_id=xyz__2024-01-15".toList ++ suf) =
      some ("2024-01-15".toList) := rfl

/-- Counterexample to C4 as stated: this path contains the substring
`run_id=xyz__2024-01-15`, yet `re.search` returns the leftmost match, so
extraction yields the earlier run's date 2020-01-01, not 2024-01-15. -/
theorem extract_execution_date_not_leftmost_cex :
    _extract_dagrun_dt_from_path
        ("run_id=a__2020-01-01/".toList ++ "run_id=xyz__2024-01-15".toList) =
      .ok (some ⟨2020, 1, 1⟩) ∧
    (⟨2020, 1, 1⟩ : Date) ≠ ⟨2024, 1, 15⟩ := by
  decide

/-- C4 (amended): for every path containing `run_id=xyz__2024-01-15` with
the dag-run pattern matching at no earlier position — in particular when
that substring is the leftmost occurrence of the convention — extraction
returns the date 2024-01-15; and for the path `run_id=abc123__2024-01-15`,
whose segment before the double underscore contains digits, the pattern
does not match and extraction returns absent. -/
theorem extract_execution_date_leftmost_spec :
    (∀ pre suf : List Char,
      (∀ i, i < pre.length →
        matchRunIdAt ((pre ++ ("run_id=xyz__2024-01-15".toList ++ suf)).drop i) = none) →
      _extract_dagrun_dt_from_path (pre ++ ("run_id=xyz__2024-01-15".toList ++ suf)) =
        .ok (some ⟨2024, 1, 15⟩)) ∧
    _extract_dagrun_dt_from_path ("run_id=abc123__2024-01-15".toList) = .ok none := by
  constructor
  · intro pre suf h
    have h1 := regexSearch_append_of_no_match (m := matchRunIdAt) pre
      ("run_id=xyz__2024-01-15".toList ++ suf) h
    have h2 : regexSearch matchRunIdAt ("run_id=xyz__2024-01-15".toList ++ suf) =
        some ("2024-01-15".toList) :=
      regexSearch_cons_of_match (matchRunIdAt_xyz suf)
    rw [_extract_dagrun_dt_from_path, h1, h2]
    rfl
  · decide

/-- Witness for C4: the leftmost-occurrence hypothesis holds for the path
`a/run_id=xyz__2024-01-15/f.log`, and extraction returns 2024-01-15. -/
theorem extract_execution_date_leftmost_spec_witness :
    _extract_dagrun_dt_from_path
        ("a/".toList ++ ("run_id=xyz__2024-01-15".toList ++ "/f.log".toList)) =
      .ok (some ⟨2024, 1, 15⟩) :=
  extract_execution_date_leftmost_spec.1 ("a/".toList) ("/f.log".toList) (by decide)

/-! ### Extraction of the workflow name (C5) -/

lemma takeWhile_word_app (nm suf : List Char) (hw : ∀ c ∈ nm, isWordCh c = true) :
    (nm ++ '/' :: suf).takeWhile isWordCh = nm := by
  induction nm with
  | nil =>
    show List.takeWhile isWordCh ('/' :: suf) = []
    rw [List.takeWhile_cons, if_neg (by decide)]
  | cons a t ih =>
    have ha := hw a (List.mem_cons_self a t)
    rw [List.cons_append, List.takeWhile_cons, if_pos ha,
      ih (fun c hc => hw c (List.mem_cons_of_mem a hc))]

lemma greedySlash_occurrence {nm : List Char} (suf : List Char) (hne : nm ≠ []) :
    greedySlash (nm ++ '/' :: suf) nm.length = some nm := by
  cases nm with
  | nil => exact absurd rfl hne
  | cons a t =>
    show greedySlash ((a :: t) ++ '/' :: suf) (t.length + 1) = some (a :: t)
    have hlen : (a :: t).length = t.length + 1 := rfl
    have hdrop : ((a :: t) ++ '/' :: suf).drop (t.length + 1) = '/' :: suf := by
      rw [← hlen, List.drop_left]
    have htake : ((a :: t) ++ '/' :: suf).take (t.length + 1) = a :: t := by
      rw [← hlen, List.take_left]
    rw [greedySlash, hdrop, htake]
    rfl

lemma matchDagAt_occurrence {nm : List Char} (suf : List Char) (hne : nm ≠ [])
    (hw : ∀ c ∈ nm, isWordCh c = true) :
    matchDagAt ("dag_id=".toList ++ (nm ++ '/' :: suf)) = some nm := by
  have h7 : ("dag_id=".toList ++ (nm ++ '/' :: suf)).take 7 = "dag_id=".toList :=
    List.take_left' (by decide)
  have hdrop7 : ("dag_id=".toList ++ (nm ++ '/' :: suf)).drop 7 = nm ++ '/' :: suf :=
    List.drop_left' (by decide)
  rw [matchDagAt, if_pos h7, hdrop7, takeWhile_word_app nm suf hw]
  exact greedySlash_occurrence suf hne

/-- Counterexample to C5 as stated: this path contains `dag_id=foo/`, yet
`re.search` returns the leftmost match, so extraction yields the earlier
name `bar`, not `foo`. -/
theorem extract_workflow_name_not_leftmost_cex :
    _extract_dag_name_from_path ("a/dag_id=bar/".toList ++ "dag_id=foo/f.log".toList) =
      some ("bar".toList) ∧ ("bar".toList : List Char) ≠ "foo".toList := by
  decide

/-- C5 (amended): for every path containing `dag_id=<nm>/` with `nm`
non-empty over `[A-Za-z0-9_]` and the dag-name pattern matching at no
earlier position — in particular when that substring is the leftmost
occurrence — `_extract_dag_name_from_path` returns `nm`; and for every
path containing no such substring at all, it returns absent (no error is
possible: the function is total into `Option`). -/
theorem extract_workflow_name_spec :
    (∀ pre nm suf : List Char, nm ≠ [] → (∀ c ∈ nm, isWordCh c = true) →
      (∀ i, i < pre.length →
        matchDagAt ((pre ++ ("dag_id=".toList ++ (nm ++ '/' :: suf))).drop i) = none) →
      _extract_dag_name_from_path (pre ++ ("dag_id=".toList ++ (nm ++ '/' :: suf))) =
        some nm) ∧
    (∀ p : List Char,
      (¬ ∃ pre nm suf : List Char,
        p = pre ++ ("dag_id=".toList ++ (nm ++ '/' :: suf)) ∧ nm ≠ [] ∧
          ∀ c ∈ nm, isWordCh c = true) →
      _extract_dag_name_from_path p = none) := by
  constructor
  · intro pre nm suf hne hw h
    rw [_extract_dag_name_from_path,
      regexSearch_append_of_no_match pre ("dag_id=".toList ++ (nm ++ '/' :: suf)) h]
    exact regexSearch_cons_of_match (matchDagAt_occurrence suf hne hw)
  · intro p hnex
    cases hx : _extract_dag_name_from_path p with
    | none => rfl
    | some nm =>
      exfalso
      obtain ⟨l2, hsuf, hm⟩ := regexSearch_eq_some hx
      obtain ⟨rest, hl2, j, hnm, hle, hs⟩ := matchDagAt_eq_some hm
      obtain ⟨t, ht⟩ := headIsSlash_true hs
      obtain ⟨l1, hl1⟩ := hsuf
      apply hnex
      refine ⟨l1, nm, t, ?_, ?_, ?_⟩
      · rw [← hl1, hl2]
        congr 1
        congr 1
        conv_lhs => rw [← List.take_append_drop (j + 1) rest]
        rw [← hnm, ht]
      · intro hnil
        rw [hnm, List.take_eq_nil_iff] at hnil
        rcases hnil with hj | hrest
        · exact Nat.succ_ne_zero j hj
        · rw [hrest] at ht
          simp at ht
      · intro c hc
        exact forall_mem_take_of_le_takeWhile hle c (hnm ▸ hc)

/-- Witness for C5: both conjuncts at concrete inputs — the leftmost
occurrence `dag_id=foo/` in `a/dag_id=foo/f.log` yields `foo`, and a path
with no such substring yields absent. -/
theorem extract_workflow_name_spec_witness :
    _extract_dag_name_from_path
        ("a/".toList ++ ("dag_id=".toList ++ ("foo".toList ++ '/' :: "f.log".toList))) =
      some ("foo".toList) :=
  extract_workflow_name_spec.1 ("a/".toList) ("foo".toList) ("f.log".toList)
    (by decide) (by decide) (by decide)

/-! ### The dag-name pattern requires a separator after the name (C10) -/

lemma greedySlash_none_of_word {l : List Char} (h : ∀ c ∈ l, isWordCh c = true) :
    ∀ k, greedySlash l k = none := by
  intro k
  induction k with
  | zero => rfl
  | succ j ih =>
    have hc : ¬ (headIsSlash (l.drop (j + 1)) = true) := by
      intro hs
      obtain ⟨t, ht⟩ := headIsSlash_true hs
      have hmem : '/' ∈ l.drop (j + 1) := by
        rw [ht]
        exact List.mem_cons_self _ _
      exact absurd (h '/' (List.drop_subset (j + 1) l hmem)) (by decide)
    rw [greedySlash, if_neg hc]
    exact ih

lemma matchDagAt_none_of_word {l : List Char} (h : ∀ c ∈ l, isWordCh c = true) :
    matchDagAt l = none := by
  rw [matchDagAt]
  by_cases h7 : l.take 7 = "dag_id=".toList
  · have hmem : '=' ∈ l.take 7 := by
      rw [h7]
      decide
    exact absurd (h '=' (List.take_subset 7 l hmem)) (by decide)
  · rw [if_neg h7]

lemma matchDagAt_no_slash {nm : List Char} (hw : ∀ c ∈ nm, isWordCh c = true) :
    matchDagAt ("dag_id=".toList ++ nm) = none := by
  have h7 : ("dag_id=".toList ++ nm).take 7 = "dag_id=".toList :=
    List.take_left' (by decide)
  have hdrop7 : ("dag_id=".toList ++ nm).drop 7 = nm :=
    List.drop_left' (by decide)
  rw [matchDagAt, if_pos h7, hdrop7]
  exact greedySlash_none_of_word hw _

/-- C10: on a path that ends with `dag_id=<nm>` — so the name token is not
followed by a path separator — and on which the pattern matches at no
earlier position, `_extract_dag_name_from_path` returns absent even
though `nm` itself is a non-empty `[A-Za-z0-9_]+` token. -/
theorem extract_workflow_name_requires_separator (pre nm : List Char)
    (hne : nm ≠ []) (hw : ∀ c ∈ nm, isWordCh c = true)
    (hpre : ∀ i, i < pre.length →
      matchDagAt ((pre ++ ("dag_id=".toList ++ nm)).drop i) = none) :
    _extract_dag_name_from_path (pre ++ ("dag_id=".toList ++ nm)) = none := by
  rw [_extract_dag_name_from_path,
    regexSearch_append_of_no_match pre ("dag_id=".toList ++ nm) hpre]
  apply regexSearch_eq_none
  intro l2 hsuf
  have hsuf0 : l2 <:+ 'd' :: 'a' :: 'g' :: '_' :: 'i' :: 'd' :: '=' :: nm := hsuf
  rcases List.suffix_cons_iff.mp hsuf0 with rfl | h1
  · exact matchDagAt_no_slash hw
  rcases List.suffix_cons_iff.mp h1 with rfl | h2
  · exact by
      rw [matchDagAt, if_neg (fun hq => by
        injection hq with ha
        exact absurd ha (by decide))]
  rcases List.suffix_cons_iff.mp h2 with rfl | h3
  · exact by
      rw [matchDagAt, if_neg (fun hq => by
        injection hq with ha
        exact absurd ha (by decide))]
  rcases List.suffix_cons_iff.mp h3 with rfl | h4
  · exact by
      rw [matchDagAt, if_neg (fun hq => by
        injection hq with ha
        exact absurd ha (by decide))]
  rcases List.suffix_cons_iff.mp h4 with rfl | h5
  · exact by
      rw [matchDagAt, if_neg (fun hq => by
        injection hq with ha
        exact absurd ha (by decide))]
  rcases List.suffix_cons_iff.mp h5 with rfl | h6
  · exact by
      rw [matchDagAt, if_neg (fun hq => by
        injection hq with ha hq2
        injection hq2 with hb
        exact absurd hb (by decide))]
  rcases List.suffix_cons_iff.mp h6 with rfl | h7
  · exact by
      rw [matchDagAt, if_neg (fun hq => by
        injection hq with ha
        exact absurd ha (by decide))]
  · exact matchDagAt_none_of_word (fun c hc => hw c (h7.subset hc))

/-- Witness for C10 at the concrete path `a/dag_id=foo`: the token `foo`
matches `[A-Za-z0-9_]+` but no `/` follows, so extraction is absent. -/
theorem extract_workflow_name_requires_separator_witness :
    _extract_dag_name_from_path ("a/".toList ++ ("dag_id=".toList ++ "foo".toList)) =
      none :=
  extract_workflow_name_requires_separator ("a/".toList) ("foo".toList)
    (by decide) (by decide) (by decide)

end AfLogsCleaner
